import Mathlib

/-!
Shallow embedding of `src/zed/src/language.rs` (the language-definition registry of a
syntax-highlighting subsystem) and proofs about its specification.

Modelling decisions:
* A filesystem path is its raw byte sequence (`Bytes := List Nat`), with Unix `Path`
  semantics: components are separated by the byte 47 (`/`), empty and `.` components are
  skipped, and a trailing `..` component means there is no file name.  This byte-level
  model is needed because `Path::file_name()`/`Path::extension()` operate on `OsStr`
  bytes and `to_str` filters out byte sequences that are not valid UTF-8.
* String-valued keys are kept as their UTF-8 byte sequences.  Rust compares the decoded
  `&str` keys with the `path_suffixes` strings; since UTF-8 decoding is injective and
  every Rust `String` is valid UTF-8, equality of the byte sequences is equivalent to
  equality of the decoded strings, so the byte-level comparison is faithful.
* `Theme` and `ThemeMap` come from `src/settings.rs`, which is not among the shown
  sources; they are modelled from the spec (see the individual doc comments).
* The mutable `Mutex<ThemeMap>` field becomes an ordinary field, and the mutating
  methods become functions returning the updated value (explicit state passing).
-/

namespace Zed

/-- A raw byte string (each entry a byte value).  Used both for paths and for the
UTF-8 encodings of the string keys involved in language selection. -/
abbrev Bytes := List Nat

/-- Is `b` a UTF-8 continuation byte (`0x80 ..= 0xBF`)? -/
def isUtf8Cont (b : Nat) : Bool := 0x80 ≤ b && b ≤ 0xBF

/-- UTF-8 validity of a byte sequence, mirroring the validation performed by Rust's
`str::from_utf8` (and hence `OsStr::to_str`): ASCII bytes stand alone, `0xC2-0xDF`
lead 2-byte sequences, `0xE0/0xE1-0xEC,0xEE,0xEF/0xED` lead 3-byte sequences (with the
restricted second-byte ranges that exclude overlong forms and surrogates), and
`0xF0/0xF1-0xF3/0xF4` lead 4-byte sequences (excluding overlong forms and code points
above `U+10FFFF`). -/
def isValidUtf8 : Bytes → Bool
  | [] => true
  | b :: rest =>
    if b ≤ 0x7F then isValidUtf8 rest
    else if 0xC2 ≤ b && b ≤ 0xDF then
      match rest with
      | b2 :: rest2 => isUtf8Cont b2 && isValidUtf8 rest2
      | [] => false
    else if b = 0xE0 then
      match rest with
      | b2 :: b3 :: rest2 =>
        (0xA0 ≤ b2 && b2 ≤ 0xBF) && isUtf8Cont b3 && isValidUtf8 rest2
      | _ => false
    else if (0xE1 ≤ b && b ≤ 0xEC) || b = 0xEE || b = 0xEF then
      match rest with
      | b2 :: b3 :: rest2 => isUtf8Cont b2 && isUtf8Cont b3 && isValidUtf8 rest2
      | _ => false
    else if b = 0xED then
      match rest with
      | b2 :: b3 :: rest2 =>
        (0x80 ≤ b2 && b2 ≤ 0x9F) && isUtf8Cont b3 && isValidUtf8 rest2
      | _ => false
    else if b = 0xF0 then
      match rest with
      | b2 :: b3 :: b4 :: rest2 =>
        (0x90 ≤ b2 && b2 ≤ 0xBF) && isUtf8Cont b3 && isUtf8Cont b4 && isValidUtf8 rest2
      | _ => false
    else if 0xF1 ≤ b && b ≤ 0xF3 then
      match rest with
      | b2 :: b3 :: b4 :: rest2 =>
        isUtf8Cont b2 && isUtf8Cont b3 && isUtf8Cont b4 && isValidUtf8 rest2
      | _ => false
    else if b = 0xF4 then
      match rest with
      | b2 :: b3 :: b4 :: rest2 =>
        (0x80 ≤ b2 && b2 ≤ 0x8F) && isUtf8Cont b3 && isUtf8Cont b4 && isValidUtf8 rest2
      | _ => false
    else false

/-- Split a byte sequence at every `/` (byte 47), keeping empty chunks. -/
def splitSlash : Bytes → List Bytes
  | [] => [[]]
  | b :: rest =>
    if b = 47 then [] :: splitSlash rest
    else
      match splitSlash rest with
      | comp :: comps => (b :: comp) :: comps
      | [] => [[b]]

/-- The normal path components of a path, in order, mirroring Rust's Unix
`Path::components`: chunks between `/` separators, with empty chunks and `.` (the
`CurDir` component) dropped.  (`..` chunks are kept here; `fileNameBytes` rejects a
trailing `..`, matching `Components::next_back` returning `ParentDir`.) -/
def pathComponents (p : Bytes) : List Bytes :=
  (splitSlash p).filter fun c => c != [] && c != [46]

/-- `Path::file_name()` at the byte level: the last component of the path, unless the
path has no components (empty path, `/`, `.`) or ends in a `..` component. -/
def fileNameBytes (p : Bytes) : Option Bytes :=
  match (pathComponents p).getLast? with
  | none => none
  | some c => if c = [46, 46] then none else some c

/-- The extension of a file name, mirroring Rust's `split_file_at_dot` as used by
`Path::extension()`: `none` for the special file name `..`, `none` when the file name
has no `.` at a position ≥ 1 (in particular for names like `.gitignore` whose only `.`
leads), and otherwise the bytes after the final `.`. -/
def extOfFileName (f : Bytes) : Option Bytes :=
  if f = [46, 46] then none
  else if (f.drop 1).contains 46 then
    some ((f.reverse.takeWhile fun b => b != 46).reverse)
  else none

/-- `Path::extension()` at the byte level: the extension of the file name, when the
path has a file name. -/
def extensionBytes (p : Bytes) : Option Bytes :=
  (fileNameBytes p).bind extOfFileName

/-- `OsStr::to_str`: keep the byte sequence as a string key exactly when it is valid
UTF-8 (the key stays in encoded form; see the module comment). -/
def toStr (b : Bytes) : Option Bytes :=
  if isValidUtf8 b then some b else none

/-- The filename key of a path: `path.file_name().and_then(|name| name.to_str())`. -/
def filenameKey (p : Bytes) : Option Bytes :=
  (fileNameBytes p).bind toStr

/-- The extension key of a path: `path.extension().and_then(|name| name.to_str())`. -/
def extensionKey (p : Bytes) : Option Bytes :=
  (extensionBytes p).bind toStr

/-- UTF-8 bytes of an ASCII string (every fixture string in this file is ASCII, where
the UTF-8 encoding is the sequence of code points). -/
def asciiBytes (s : String) : Bytes := s.data.map Char.toNat

example : asciiBytes "zed/lib.rs" = [122, 101, 100, 47, 108, 105, 98, 46, 114, 115] := by
  decide

example : fileNameBytes (asciiBytes "zed/lib.rs") = some (asciiBytes "lib.rs") := by decide
example : extensionBytes (asciiBytes "zed/lib.rs") = some (asciiBytes "rs") := by decide
example : fileNameBytes (asciiBytes "/") = none := by decide
example : fileNameBytes (asciiBytes "a/..") = none := by decide
example : fileNameBytes (asciiBytes "foo/") = some (asciiBytes "foo") := by decide
example : extensionBytes (asciiBytes ".gitignore") = none := by decide
example : extensionBytes (asciiBytes "a.tar.gz") = some (asciiBytes "gz") := by decide
example : extensionBytes (asciiBytes "Makefile") = none := by decide

/-- Modelled from the spec: the style descriptor is an opaque value supplied by the Theme
collaborator (`src/settings.rs` is not among the shown sources); only its identity
matters here, so it is modelled as an opaque numeric handle. -/
abbrev Style := Nat

/-- Modelled from the spec: the `Theme` collaborator (`src/settings.rs` is not among the
shown sources) supplies, for a given capture-name string, a style descriptor; the theme
mapping calls into it once per capture name on every `set_theme`. -/
structure Theme where
  style : String → Style

/-- Modelled from the spec: a `ThemeMap` (`src/settings.rs` is not among the shown
sources) is a mapping from capture name to the style the theme resolves for it. -/
abbrev ThemeMap := List (String × Style)

/-- Modelled from the spec: `ThemeMap::new(capture_names, theme)` deterministically
recomputes the full mapping from the query's capture names and the given theme, one
entry per capture name. -/
def ThemeMap.new (capture_names : List String) (theme : Theme) : ThemeMap :=
  capture_names.map fun c => (c, theme.style c)

/-- Modelled from the spec: the default `ThemeMap` is the empty mapping
("Default/empty before first theme assignment"). -/
def ThemeMap.default : ThemeMap := []

/-- An opaque handle to a compiled tree-sitter grammar (`tree_sitter::Language`);
immutable after load, so only its identity is modelled. -/
structure Grammar where
  id : Nat
deriving DecidableEq

/-- A compiled highlight query (`tree_sitter::Query`); immutable after load.  The only
part of its interface this fragment uses is `capture_names()`. -/
structure Query where
  capture_names : List String
deriving DecidableEq

/-- `LanguageConfig`: the declarative per-language configuration (`name`,
`path_suffixes`).  The suffixes are Rust `String`s; they are kept as their UTF-8 byte
sequences to match the byte-level path keys. -/
structure LanguageConfig where
  name : String
  path_suffixes : List Bytes
deriving DecidableEq

/-- The `Language` aggregate: config, grammar and highlight query (immutable), plus the
theme mapping (the `Mutex<ThemeMap>` field, modelled as a plain field with explicit
state passing). -/
structure Language where
  config : LanguageConfig
  grammar : Grammar
  highlight_query : Query
  theme_mapping : ThemeMap
deriving DecidableEq

/-- `Language::theme_mapping()`: returns a snapshot clone of the current mapping
(cloning is the identity on the model's value type). -/
def Language.theme_mapping' (self : Language) : ThemeMap :=
  self.theme_mapping

/-- `Language::set_theme(theme)`: replaces the theme mapping wholesale with
`ThemeMap::new(self.highlight_query.capture_names(), theme)`; returns the updated
language state. -/
def Language.set_theme (self : Language) (theme : Theme) : Language :=
  { self with theme_mapping := ThemeMap.new self.highlight_query.capture_names theme }

/-- `LanguageRegistry`: the ordered list of registered languages. -/
structure LanguageRegistry where
  languages : List Language
deriving DecidableEq

/-- The body of `LanguageRegistry::set_theme`'s `for` loop: apply
`Language::set_theme` to each registered language, front to back. -/
def setThemeList (theme : Theme) : List Language → List Language
  | [] => []
  | language :: rest => language.set_theme theme :: setThemeList theme rest

/-- `LanguageRegistry::set_theme(theme)`: forwards to every registered language's
`set_theme`, in registration order. -/
def LanguageRegistry.set_theme (self : LanguageRegistry) (theme : Theme) : LanguageRegistry :=
  { languages := setThemeList theme self.languages }

/-- `LanguageRegistry::select_language(path)`: derive the filename and extension keys,
then return the first registered language one of whose `path_suffixes` equals one of
the keys. -/
def LanguageRegistry.select_language (self : LanguageRegistry) (path : Bytes) :
    Option Language :=
  let filename := filenameKey path
  let extension := extensionKey path
  let path_suffixes := [extension, filename]
  self.languages.find? fun language =>
    language.config.path_suffixes.any fun suffix => path_suffixes.contains (some suffix)

/-- Modelled from the spec: the compiled grammar produced by `tree_sitter_rust::language()`
(an external crate, not among the shown sources), as an opaque handle. -/
def tree_sitter_rust_language : Grammar := ⟨0⟩

/-- Modelled from the spec: the query compiled from the embedded `rust/highlights.scm`
(the embedded resource bundle is not among the shown sources); the spec names
"keyword", "string", "function" as example capture names. -/
def rustHighlightQuery : Query :=
  { capture_names := ["keyword", "string", "function"] }

/-- Modelled from the spec: the Rust language constructed by `LanguageRegistry::new()`
(its config comes from the embedded `rust/config.toml`, not among the shown sources);
its theme mapping starts as `ThemeMap::default()`. -/
def rustLanguage : Language :=
  { config := { name := "Rust", path_suffixes := [asciiBytes "rs"] }
    grammar := tree_sitter_rust_language
    highlight_query := rustHighlightQuery
    theme_mapping := ThemeMap.default }

/-- Modelled from the spec: `LanguageRegistry::new()` builds the registry from the
embedded resources (the `languages/` bundle and `src/settings.rs` are not among the
shown sources): a single Rust language. -/
def LanguageRegistry.new : LanguageRegistry :=
  { languages := [rustLanguage] }

/-- The Rust language of the `test_select_language` fixture: suffixes `["rs"]`, an
empty highlight query, a default theme mapping. -/
def rustTestLanguage : Language :=
  { config := { name := "Rust", path_suffixes := [asciiBytes "rs"] }
    grammar := tree_sitter_rust_language
    highlight_query := { capture_names := [] }
    theme_mapping := ThemeMap.default }

/-- The Make language of the `test_select_language` fixture: suffixes
`["Makefile", "mk"]`. -/
def makeTestLanguage : Language :=
  { config := { name := "Make", path_suffixes := [asciiBytes "Makefile", asciiBytes "mk"] }
    grammar := tree_sitter_rust_language
    highlight_query := { capture_names := [] }
    theme_mapping := ThemeMap.default }

/-- The registry of the `test_select_language` fixture: Rust registered before Make. -/
def testRegistry : LanguageRegistry :=
  { languages := [rustTestLanguage, makeTestLanguage] }

example : (testRegistry.select_language (asciiBytes "zed/lib.rs")).map
    (fun l => l.config.name) = some "Rust" := by decide
example : (testRegistry.select_language (asciiBytes "zed/lib.mk")).map
    (fun l => l.config.name) = some "Make" := by decide
example : (testRegistry.select_language (asciiBytes "zed/Makefile")).map
    (fun l => l.config.name) = some "Make" := by decide
example : testRegistry.select_language (asciiBytes "zed/cars") = none := by decide
example : testRegistry.select_language (asciiBytes "zed/a.cars") = none := by decide
example : testRegistry.select_language (asciiBytes "zed/sumk") = none := by decide

/-- The per-language test of the selection algorithm, stated the way the spec states
it: some entry of the language's `path_suffixes` exactly equals the path's filename
key or exactly equals its extension key. -/
def langMatches (p : Bytes) (language : Language) : Prop :=
  ∃ s ∈ language.config.path_suffixes, filenameKey p = some s ∨ extensionKey p = some s

instance langMatchesDecidable (p : Bytes) (language : Language) :
    Decidable (langMatches p language) :=
  inferInstanceAs (Decidable (∃ s ∈ language.config.path_suffixes,
    filenameKey p = some s ∨ extensionKey p = some s))

/-- The boolean test `select_language` runs on each language agrees with
`langMatches`. -/
theorem matcher_eq_langMatches (p : Bytes) (language : Language) :
    (language.config.path_suffixes.any fun suffix =>
        [extensionKey p, filenameKey p].contains (some suffix)) = true
      ↔ langMatches p language := by
  simp only [List.any_eq_true, List.contains_cons, List.contains_nil, Bool.or_false,
    Bool.or_eq_true, beq_iff_eq, langMatches]
  constructor
  · rintro ⟨s, hs, h | h⟩
    · exact ⟨s, hs, Or.inr h.symm⟩
    · exact ⟨s, hs, Or.inl h.symm⟩
  · rintro ⟨s, hs, h | h⟩
    · exact ⟨s, hs, Or.inr h.symm⟩
    · exact ⟨s, hs, Or.inl h.symm⟩

/-- `List.find?` returns the first element satisfying the predicate: its result is `x`
exactly when the list splits as `pre ++ x :: post` with `x` satisfying the predicate
and everything in `pre` failing it. -/
theorem find?_eq_some_first {α : Type} (q : α → Bool) (xs : List α) (x : α) :
    xs.find? q = some x ↔
      ∃ pre post, xs = pre ++ x :: post ∧ q x = true ∧ ∀ y ∈ pre, q y = false := by
  induction xs with
  | nil =>
    simp only [List.find?_nil]
    constructor
    · intro h
      cases h
    · rintro ⟨pre, post, heq, -, -⟩
      cases pre <;> cases heq
  | cons a as ih =>
    cases hqa : q a with
    | true =>
      rw [List.find?_cons_of_pos _ hqa]
      constructor
      · intro h
        injection h with h
        subst h
        exact ⟨[], as, rfl, hqa, by simp⟩
      · rintro ⟨pre, post, heq, hqx, hpre⟩
        cases pre with
        | nil =>
          injection heq with h1 h2
          rw [h1]
        | cons b pre2 =>
          injection heq with h1 h2
          subst h1
          rw [hpre a (by simp)] at hqa
          cases hqa
    | false =>
      rw [List.find?_cons_of_neg _ (by simp [hqa]), ih]
      constructor
      · rintro ⟨pre, post, heq, hqx, hpre⟩
        refine ⟨a :: pre, post, by rw [heq, List.cons_append], hqx, ?_⟩
        intro y hy
        rcases List.mem_cons.1 hy with h | h
        · rw [h]
          exact hqa
        · exact hpre y h
      · rintro ⟨pre, post, heq, hqx, hpre⟩
        cases pre with
        | nil =>
          injection heq with h1 h2
          subst h1
          rw [hqx] at hqa
          cases hqa
        | cons b pre2 =>
          injection heq with h1 h2
          subst h1
          exact ⟨pre2, post, h2, hqx, fun y hy => hpre y (List.mem_cons_of_mem _ hy)⟩

/-- C1: for every registry and path, `select_language` returns the first language in
registration order one of whose `path_suffixes` entries exactly equals the path's
filename key or exactly equals its extension key — the registry splits as
`pre ++ winner :: post` with every earlier-registered language failing the test — and
returns `none` exactly when no registered language has such an entry; in particular,
when two languages both match, the earlier-registered one is returned. -/
theorem select_language_first_match (r : LanguageRegistry) (p : Bytes) :
    (∀ l : Language, r.select_language p = some l ↔
        ∃ pre post, r.languages = pre ++ l :: post ∧ langMatches p l ∧
          ∀ l' ∈ pre, ¬ langMatches p l')
    ∧ (r.select_language p = none ↔ ∀ l ∈ r.languages, ¬ langMatches p l) := by
  constructor
  · intro l
    rw [LanguageRegistry.select_language, find?_eq_some_first]
    constructor
    · rintro ⟨pre, post, heq, hq, hpre⟩
      refine ⟨pre, post, heq, (matcher_eq_langMatches p l).1 hq, ?_⟩
      intro l' hl' hm
      have hf := hpre l' hl'
      rw [(matcher_eq_langMatches p l').2 hm] at hf
      cases hf
    · rintro ⟨pre, post, heq, hm, hpre⟩
      refine ⟨pre, post, heq, (matcher_eq_langMatches p l).2 hm, ?_⟩
      intro l' hl'
      cases hq : (l'.config.path_suffixes.any fun suffix =>
          [extensionKey p, filenameKey p].contains (some suffix)) with
      | false => rfl
      | true => exact absurd ((matcher_eq_langMatches p l').1 hq) (hpre l' hl')
  · rw [LanguageRegistry.select_language, List.find?_eq_none]
    constructor
    · intro h l hl hm
      exact h l hl ((matcher_eq_langMatches p l).2 hm)
    · intro h l hl hq
      exact h l hl ((matcher_eq_langMatches p l).1 hq)

/-- Witness for C1 at a concrete input: on the fixture registry and the path
`zed/lib.mk`, the characterisation yields the Make language with the non-matching
Rust language registered before it. -/
theorem select_language_first_match_witness :
    testRegistry.select_language (asciiBytes "zed/lib.mk") = some makeTestLanguage :=
  ((select_language_first_match testRegistry (asciiBytes "zed/lib.mk")).1
      makeTestLanguage).2
    ⟨[rustTestLanguage], [], by decide, by decide, by decide⟩

/-- A path with a file name never has the file name `..` (mirroring that `file_name`
rejects a trailing `ParentDir` component). -/
theorem fileNameBytes_ne_dotdot (p f : Bytes) (h : fileNameBytes p = some f) :
    f ≠ [46, 46] := by
  rw [fileNameBytes] at h
  split at h
  · cases h
  · split at h
    · cases h
    · injection h with h
      subst h
      assumption

/-- C2 counterexample: for the path `.gitignore`, the filename contains a `.`, yet the
extension key is absent (and in particular is not `gitignore`) — refuting the claim
that the extension key is absent exactly when the filename contains no `.`. -/
theorem extension_key_dotfile_counterexample :
    fileNameBytes (asciiBytes ".gitignore") = some (asciiBytes ".gitignore")
    ∧ (asciiBytes ".gitignore").contains 46 = true
    ∧ extensionKey (asciiBytes ".gitignore") = none
    ∧ extensionKey (asciiBytes ".gitignore") ≠ some (asciiBytes "gitignore") := by
  decide

/-- C2 (amended): `select_language` derives the filename key as the path's filename
component and the extension key from the substring of the filename after its final
`.`; the extension is absent exactly when the filename contains no `.` past its first
byte — so a filename `.gitignore`, whose only `.` is leading, has no extension key —
and when present the filename splits as `pre ++ 46 :: e` with `pre` nonempty and the
extension `e` dot-free (so the split is at the final `.`). -/
theorem extension_key_amended (p f : Bytes) (h : fileNameBytes p = some f) :
    (extensionBytes p = none ↔ (f.drop 1).contains 46 = false)
    ∧ ∀ e, extensionBytes p = some e →
        46 ∉ e ∧ ∃ pre, pre ≠ [] ∧ f = pre ++ 46 :: e := by
  have hne : f ≠ [46, 46] := fileNameBytes_ne_dotdot p f h
  have hext : extensionBytes p = extOfFileName f := by
    rw [extensionBytes, h]
    rfl
  rw [hext, extOfFileName, if_neg hne]
  cases hc : (f.drop 1).contains 46 with
  | false =>
    rw [if_neg (by simp)]
    refine ⟨by simp, ?_⟩
    intro e he
    cases he
  | true =>
    rw [if_pos rfl]
    refine ⟨by simp, ?_⟩
    intro e he
    injection he with he
    have hemem : 46 ∉ e := by
      intro hmem
      rw [← he] at hmem
      have := List.mem_takeWhile_imp (List.mem_reverse.1 hmem)
      simp at this
    refine ⟨hemem, ?_⟩
    have hsplit :
        (f.reverse.takeWhile fun b => b != 46) ++ (f.reverse.dropWhile fun b => b != 46)
          = f.reverse := List.takeWhile_append_dropWhile _ _
    have hdne : (f.reverse.dropWhile fun b => b != 46) ≠ [] := by
      intro hd
      rw [hd, List.append_nil] at hsplit
      have h46 : 46 ∈ f := by
        have : 46 ∈ f.drop 1 := by
          simpa [List.contains, List.elem_iff] using hc
        exact List.mem_of_mem_drop this
      have := List.mem_takeWhile_imp (hsplit ▸ List.mem_reverse.2 h46)
      simp at this
    have hhead := List.head_dropWhile_not (fun b => b != 46) f.reverse hdne
    have hhead46 : (f.reverse.dropWhile fun b => b != 46).head hdne = 46 := by
      simpa using hhead
    have hdcons : (f.reverse.dropWhile fun b => b != 46)
        = 46 :: (f.reverse.dropWhile fun b => b != 46).tail := by
      conv_lhs => rw [← List.head_cons_tail _ hdne]
      rw [hhead46]
    refine ⟨((f.reverse.dropWhile fun b => b != 46).tail).reverse, ?_, ?_⟩
    · intro hpre
      have htail : (f.reverse.dropWhile fun b => b != 46).tail = [] := by
        simpa using congrArg List.reverse hpre
      have hd46 : (f.reverse.dropWhile fun b => b != 46) = [46] := by
        rw [hdcons, htail]
      have hfrev : f.reverse = (f.reverse.takeWhile fun b => b != 46) ++ [46] := by
        conv_lhs => rw [← hsplit]
        rw [hd46]
      have hfeq : f = 46 :: e := by
        have hrev := congrArg List.reverse hfrev
        simpa [he] using hrev
      have : 46 ∈ f.drop 1 := by
        simpa [List.contains, List.elem_iff] using hc
      rw [hfeq] at this
      simp at this
      exact hemem this
    · have hfrev : f.reverse = (f.reverse.takeWhile fun b => b != 46)
          ++ (46 :: (f.reverse.dropWhile fun b => b != 46).tail) := by
        conv_lhs => rw [← hsplit]
        conv_lhs => rw [hdcons]
      have hrev := congrArg List.reverse hfrev
      simpa [he] using hrev

/-- Witness for C2 (amended) at a concrete input: the path `zed/lib.rs` has file name
`lib.rs`, whose extension key is present, and the characterisation applies. -/
theorem extension_key_amended_witness :
    extensionBytes (asciiBytes "zed/lib.rs") = none ↔
      ((asciiBytes "lib.rs").drop 1).contains 46 = false :=
  (extension_key_amended (asciiBytes "zed/lib.rs") (asciiBytes "lib.rs") (by decide)).1

/-- C3: when neither the filename key nor the extension key of a path equals any
`path_suffixes` entry of any registered language, `select_language` returns `none` —
in particular a registered suffix that is merely a proper substring of the filename or
of the extension (such as `rs` against `zed/cars` or `zed/a.cars`, or `mk` against
`zed/sumk`) never matches. -/
theorem select_language_no_exact_key_none (r : LanguageRegistry) (p : Bytes)
    (h : ∀ l ∈ r.languages, ∀ s ∈ l.config.path_suffixes,
        filenameKey p ≠ some s ∧ extensionKey p ≠ some s) :
    r.select_language p = none := by
  rw [LanguageRegistry.select_language, List.find?_eq_none]
  intro l hl hq
  obtain ⟨s, hs, hor⟩ := (matcher_eq_langMatches p l).1 hq
  rcases hor with hf | he
  · exact (h l hl s hs).1 hf
  · exact (h l hl s hs).2 he

/-- Witness for C3 at a concrete input: on the fixture registry, the path `zed/a.cars`
(whose extension `cars` strictly contains the registered suffix `rs`) selects no
language. -/
theorem select_language_no_exact_key_none_witness :
    testRegistry.select_language (asciiBytes "zed/a.cars") = none :=
  select_language_no_exact_key_none testRegistry (asciiBytes "zed/a.cars") (by decide)

/-- C4: `LanguageRegistry::set_theme` applies `Language::set_theme` to every registered
language positionwise, preserving registration order, and afterwards each language's
theme mapping equals the full replacement mapping recomputed from that language's query
capture names and the given theme. -/
theorem registry_set_theme_spec (r : LanguageRegistry) (theme : Theme) :
    (∀ i : Nat, (r.set_theme theme).languages[i]?
        = (r.languages[i]?).map fun l => l.set_theme theme)
    ∧ ∀ l ∈ r.languages, (l.set_theme theme).theme_mapping'
        = ThemeMap.new l.highlight_query.capture_names theme := by
  have hmap : setThemeList theme r.languages
      = r.languages.map fun l => l.set_theme theme := by
    induction r.languages with
    | nil => rfl
    | cons a as ih => rw [setThemeList, List.map_cons, ih]
  constructor
  · intro i
    rw [LanguageRegistry.set_theme]
    rw [hmap]
    exact List.getElem?_map ..
  · intro l _
    rfl

/-- Witness for C4 at a concrete input: broadcasting a constant theme over the fixture
registry rewrites position 0 to the Rust language with its recomputed mapping. -/
theorem registry_set_theme_spec_witness :
    (testRegistry.set_theme (Theme.mk fun _ => 0)).languages[0]?
      = some (rustTestLanguage.set_theme (Theme.mk fun _ => 0)) := by
  rw [(registry_set_theme_spec testRegistry (Theme.mk fun _ => 0)).1 0]
  rfl

/-- C5: `Language::set_theme` is idempotent under repeated identical input: two calls
with the same theme produce exactly the same language state as one call — in
particular the same capture-to-style entries — and `theme_mapping()` returns equal
snapshots after either call sequence. -/
theorem set_theme_idempotent (l : Language) (theme : Theme) :
    (l.set_theme theme).set_theme theme = l.set_theme theme
    ∧ ((l.set_theme theme).set_theme theme).theme_mapping'
        = (l.set_theme theme).theme_mapping' :=
  ⟨rfl, rfl⟩

/-- C6: `Language::set_theme` changes only the theme-mapping field: the config (name
and path suffixes), the grammar and the highlight query are unchanged, and the
snapshot returned by a subsequent `theme_mapping()` call is exactly the newly
installed replacement mapping. -/
theorem set_theme_frame (l : Language) (theme : Theme) :
    (l.set_theme theme).config = l.config
    ∧ (l.set_theme theme).grammar = l.grammar
    ∧ (l.set_theme theme).highlight_query = l.highlight_query
    ∧ (l.set_theme theme).theme_mapping'
        = ThemeMap.new l.highlight_query.capture_names theme :=
  ⟨rfl, rfl, rfl, rfl⟩

/-- C7: a lookup miss is not an error: when no registered language matches the path,
`select_language` returns the explicit absence value `none` of its `Option` result
type — the function is total, and, taking the registry by shared reference, it is a
pure function of the registry, so the registry state is unchanged by the call. -/
theorem select_language_miss_not_error (r : LanguageRegistry) (p : Bytes)
    (h : ∀ l ∈ r.languages, ¬ langMatches p l) :
    r.select_language p = none := by
  rw [LanguageRegistry.select_language, List.find?_eq_none]
  intro l hl hq
  exact h l hl ((matcher_eq_langMatches p l).1 hq)

/-- Witness for C7 at a concrete input: on the fixture registry, no language matches
`zed/sumk`, and the lookup miss is the ordinary value `none`. -/
theorem select_language_miss_not_error_witness :
    testRegistry.select_language (asciiBytes "zed/sumk") = none :=
  select_language_miss_not_error testRegistry (asciiBytes "zed/sumk") (by decide)

/-- C8: every language of a freshly constructed registry (`LanguageRegistry::new`),
before any `set_theme` call, has the default (empty) theme mapping, so
`theme_mapping()` returns `ThemeMap::default()`. -/
theorem new_theme_mapping_default :
    ∀ l ∈ LanguageRegistry.new.languages, l.theme_mapping' = ThemeMap.default := by
  decide

/-- Witness for C8 at a concrete input: the freshly constructed Rust language's
`theme_mapping()` snapshot is the default mapping. -/
theorem new_theme_mapping_default_witness :
    rustLanguage.theme_mapping' = ThemeMap.default :=
  new_theme_mapping_default rustLanguage (by decide)

/-- C10 counterexample: for the byte path `zed/<0xFF>.rs` the filename `<0xFF>.rs` is
not valid UTF-8, so the filename key is absent — yet the extension bytes `rs` are
valid UTF-8, the extension key is present, and the fixture registry selects the Rust
language instead of returning `none` as the claim asserts. -/
theorem select_language_invalid_utf8_counterexample :
    fileNameBytes [122, 101, 100, 47, 255, 46, 114, 115] = some [255, 46, 114, 115]
    ∧ isValidUtf8 [255, 46, 114, 115] = false
    ∧ filenameKey [122, 101, 100, 47, 255, 46, 114, 115] = none
    ∧ extensionKey [122, 101, 100, 47, 255, 46, 114, 115] = some (asciiBytes "rs")
    ∧ testRegistry.select_language [122, 101, 100, 47, 255, 46, 114, 115]
        = some rustTestLanguage := by
  decide

/-- C10 (amended): `select_language` returns `none` for every path with no filename
component (such a path yields neither key); a filename that is not valid UTF-8 yields
no filename key, but the path may still have an extension key — present when the bytes
after the final `.` are valid UTF-8 — which can still match a registered suffix. -/
theorem select_language_no_filename_amended (r : LanguageRegistry) (p : Bytes) :
    (fileNameBytes p = none → r.select_language p = none)
    ∧ ∀ f, fileNameBytes p = some f → isValidUtf8 f = false → filenameKey p = none := by
  constructor
  · intro hf
    have hfk : filenameKey p = none := by
      rw [filenameKey, hf]
      rfl
    have hek : extensionKey p = none := by
      rw [extensionKey, extensionBytes, hf]
      rfl
    rw [LanguageRegistry.select_language, List.find?_eq_none]
    intro l hl hq
    obtain ⟨s, hs, hor⟩ := (matcher_eq_langMatches p l).1 hq
    rcases hor with hx | hx
    · rw [hfk] at hx
      cases hx
    · rw [hek] at hx
      cases hx
  · intro f hf hv
    rw [filenameKey, hf]
    show toStr f = none
    rw [toStr, if_neg (by simp [hv])]

/-- Witness for C10 (amended) at concrete inputs: the root path `/` has no filename
component and selects nothing, and the invalid-UTF-8 filename `<0xFF>.rs` yields no
filename key. -/
theorem select_language_no_filename_amended_witness :
    testRegistry.select_language (asciiBytes "/") = none
    ∧ filenameKey [122, 101, 100, 47, 255, 46, 114, 115] = none :=
  ⟨(select_language_no_filename_amended testRegistry (asciiBytes "/")).1 (by decide),
   (select_language_no_filename_amended testRegistry
        [122, 101, 100, 47, 255, 46, 114, 115]).2
      [255, 46, 114, 115] (by decide) (by decide)⟩

end Zed
